import Mathlib

/-!
Shallow embedding, in Lean 4, of the subtitle-burner web application
(`src/lib/SubtitleProcessor.ts`, `src/lib/ProgressManager.ts`,
`src/hooks/useVideoProcessing.ts`).

JavaScript numbers are modelled as rationals (`ℚ`); all subtitle
timestamps produced by the parsers are exact multiples of 1/1000, so no
floating-point rounding is observable in the properties treated here.
Strings are Lean `String`s; the small regular expressions used by the
code are translated into explicit character-level scanning functions
with the same leftmost-match semantics.
-/

namespace SubtitleBurner

/-- `SubtitleEntry` from `types.ts` (the optional `x`, `y`, `style`
fields are never consulted by the functions verified here). -/
structure SubtitleEntry where
  index : Int
  startTime : ℚ
  endTime : ℚ
  text : String
  deriving Repr, DecidableEq

/-- `SubtitleStats` from `types.ts`, as produced by
`filterSubtitlesByDuration`. -/
structure SubtitleStats where
  total : ℕ
  relevant : ℕ
  filtered : ℕ
  avgDuration : ℚ
  totalDuration : ℚ
  deriving Repr, DecidableEq

/-- `SubtitleProcessor.filterSubtitlesByDuration`: keep the entries that
start before the video ends, clip their end times to the video duration,
and compute summary statistics. -/
def filterSubtitlesByDuration (subtitles : List SubtitleEntry) (videoDuration : ℚ) :
    List SubtitleEntry × SubtitleStats :=
  let filteredSubtitles :=
    (subtitles.filter (fun sub => sub.startTime < videoDuration)).map
      (fun sub => { sub with endTime := min sub.endTime videoDuration })
  let totalSubtitleDuration :=
    filteredSubtitles.foldl (fun sum sub => sum + (sub.endTime - sub.startTime)) 0
  let avgDuration :=
    if filteredSubtitles.length > 0 then
      totalSubtitleDuration / (filteredSubtitles.length : ℚ)
    else 0
  (filteredSubtitles,
   { total := subtitles.length
     relevant := filteredSubtitles.length
     filtered := subtitles.length - filteredSubtitles.length
     avgDuration := avgDuration
     totalDuration := totalSubtitleDuration })

end SubtitleBurner

namespace SubtitleBurner

/-! ### SRT parsing (`parseSrtFile` and its helpers) -/

/-- The JavaScript `\s` character class (also the set trimmed by
`String.prototype.trim`). -/
def jsWhitespace (c : Char) : Bool :=
  c.val == 9 || c.val == 10 || c.val == 11 || c.val == 12 || c.val == 13 ||
  c.val == 32 || c.val == 0xa0 || c.val == 0x1680 ||
  (decide ((0x2000 : UInt32) ≤ c.val) && decide (c.val ≤ (0x200a : UInt32))) ||
  c.val == 0x2028 || c.val == 0x2029 || c.val == 0x202f || c.val == 0x205f ||
  c.val == 0x3000 || c.val == 0xfeff

/-- JavaScript `String.prototype.trim`. -/
def jsTrim (s : String) : String :=
  ⟨(((s.toList.dropWhile jsWhitespace).reverse.dropWhile jsWhitespace).reverse)⟩

/-- Split a character list at every occurrence of `sep` (occurrences are
consumed; empty pieces are kept, as in JavaScript `String.split`). -/
def splitOnChar (sep : Char) : List Char → List (List Char)
  | [] => [[]]
  | c :: rest =>
    if c = sep then [] :: splitOnChar sep rest
    else
      match splitOnChar sep rest with
      | b :: bs => (c :: b) :: bs
      | [] => [[c]]

/-- JavaScript `str.split('\n')`. -/
def splitNl (s : String) : List String :=
  (splitOnChar '\n' s.toList).map (fun l => ⟨l⟩)

/-- Index of the last occurrence of `c` in `l`, if any. -/
def lastIdxOf (c : Char) (l : List Char) : Option ℕ :=
  match l.reverse.findIdx? (· = c) with
  | some j => some (l.length - 1 - j)
  | none => none

/-- JavaScript `str.split(/\n\s*\n/)`: scan left to right; a separator
starts at a `'\n'` and extends (greedily, per the regex `\n\s*\n`) to
the last `'\n'` of the whitespace run that follows it.  The `fuel`
argument only bounds the number of iterations so that the recursion is
structural; every step consumes at least one input character, so
`l.length` fuel is always enough and the `0` case is unreachable. -/
def splitBlocksAux : ℕ → List Char → List Char → List (List Char)
  | _, [], cur => [cur.reverse]
  | 0, l, cur => [cur.reverse ++ l]
  | fuel + 1, c :: rest, cur =>
    if c = '\n' then
      match lastIdxOf '\n' (rest.takeWhile jsWhitespace) with
      | some k => cur.reverse :: splitBlocksAux fuel (rest.drop (k + 1)) []
      | none => splitBlocksAux fuel rest (c :: cur)
    else splitBlocksAux fuel rest (c :: cur)

/-- The block list produced by `srtContent.trim().split(/\n\s*\n/)`. -/
def splitBlocks (s : String) : List String :=
  (splitBlocksAux s.toList.length s.toList []).map (fun l => ⟨l⟩)

/-- JavaScript `parseInt(str)` (radix auto-detection): skip leading
whitespace, read an optional sign and then leading decimal (or, after
`0x`/`0X`, hexadecimal) digits; `none` models `NaN`. -/
def parseIntJS (s : String) : Option Int :=
  let l := s.toList.dropWhile jsWhitespace
  let (sign, l) : Int × List Char :=
    match l with
    | '-' :: r => (-1, r)
    | '+' :: r => (1, r)
    | r => (1, r)
  match l with
  | '0' :: x :: r =>
    if x = 'x' ∨ x = 'X' then
      let ds := r.takeWhile (fun c => c.isDigit || ('a' ≤ c && c ≤ 'f') || ('A' ≤ c && c ≤ 'F'))
      if ds = [] then some 0  -- "0x" with no hex digits: parseInt stops after the leading 0
      else some (sign * (ds.foldl (fun a c =>
        16 * a + (if c.isDigit then (c.toNat - 48) else if 'a' ≤ c then c.toNat - 87 else c.toNat - 55)) 0 : ℕ))
    else
      let ds := ('0' :: x :: r).takeWhile Char.isDigit
      some (sign * (ds.foldl (fun a c => 10 * a + (c.toNat - 48)) 0 : ℕ))
  | l =>
    let ds := l.takeWhile Char.isDigit
    if ds = [] then none
    else some (sign * (ds.foldl (fun a c => 10 * a + (c.toNat - 48)) 0 : ℕ))

/-- Numeric value of a captured digit group. -/
def digitsVal (l : List Char) : ℕ :=
  l.foldl (fun a c => 10 * a + (c.toNat - 48)) 0

/-- Try to read exactly `n` digits at the head of `l`. -/
def takeDigits : ℕ → List Char → Option (List Char × List Char)
  | 0, l => some ([], l)
  | n + 1, c :: r =>
    if c.isDigit then
      match takeDigits n r with
      | some (ds, rest) => some (c :: ds, rest)
      | none => none
    else none
  | _ + 1, [] => none

/-- Expect the single character `c` at the head. -/
def expectChar (c : Char) : List Char → Option (List Char)
  | x :: r => if x = c then some r else none
  | [] => none

/-- One SRT timestamp `\d{2}:\d{2}:\d{2}[,.]\d{3}`, returning
`(hh, mm, ss, mmm)` as numbers. -/
def matchSrtStamp (l : List Char) : Option ((ℕ × ℕ × ℕ × ℕ) × List Char) := do
  let (h, l) ← takeDigits 2 l
  let l ← expectChar ':' l
  let (m, l) ← takeDigits 2 l
  let l ← expectChar ':' l
  let (s, l) ← takeDigits 2 l
  let l ← match l with
          | x :: r => if x = ',' ∨ x = '.' then some r else none
          | [] => none
  let (ms, l) ← takeDigits 3 l
  return ((digitsVal h, digitsVal m, digitsVal s, digitsVal ms), l)

/-- The time-line regex
`(\d{2}):(\d{2}):(\d{2})[,.](\d{3})\s*-->\s*(\d{2}):(\d{2}):(\d{2})[,.](\d{3})`
matched at the head of `l`. -/
def matchSrtTimesAt (l : List Char) : Option ((ℕ × ℕ × ℕ × ℕ) × (ℕ × ℕ × ℕ × ℕ)) := do
  let (t1, l) ← matchSrtStamp l
  let l := l.dropWhile jsWhitespace
  let l ← expectChar '-' l
  let l ← expectChar '-' l
  let l ← expectChar '>' l
  let l := l.dropWhile jsWhitespace
  let (t2, _) ← matchSrtStamp l
  return (t1, t2)

/-- Leftmost match of the time-line regex anywhere in the line. -/
def findSrtTimes : List Char → Option ((ℕ × ℕ × ℕ × ℕ) × (ℕ × ℕ × ℕ × ℕ))
  | [] => none
  | c :: rest =>
    match matchSrtTimesAt (c :: rest) with
    | some r => some r
    | none => findSrtTimes rest

/-- JavaScript `.replace(/\r?\n/g, ' ')`. -/
def stripNewlines : List Char → List Char
  | '\r' :: '\n' :: rest => ' ' :: stripNewlines rest
  | '\n' :: rest => ' ' :: stripNewlines rest
  | c :: rest => c :: stripNewlines rest
  | [] => []

/-- JavaScript `.replace(/\{[^}]*\}/g, '')`: drop each `{...}` group up
to its first closing brace; an unclosed opening brace is kept.  `fuel`
only makes the recursion structural; `l.length` is always enough. -/
def stripBraces : ℕ → List Char → List Char
  | _, [] => []
  | 0, l => l
  | fuel + 1, '{' :: rest =>
    match rest.dropWhile (· ≠ '}') with
    | _ :: r => stripBraces fuel r
    | [] => '{' :: stripBraces fuel rest
  | fuel + 1, c :: rest => c :: stripBraces fuel rest

/-- The character class kept by `.replace(/[^\w\s.,!?;:()\-]/g, '')`:
`\w` (ASCII letters, digits, underscore), `\s`, and the listed
punctuation. -/
def keptChar (c : Char) : Bool :=
  c.isAlphanum || c == '_' || jsWhitespace c || c == '.' || c == ',' ||
  c == '!' || c == '?' || c == ';' || c == ':' || c == '(' || c == ')' || c == '-'

/-- The sanitization chain applied to `lines.slice(2).join(' ')` in
`parseSrtFile`, including the final `trim()`. -/
def sanitizeSrtText (joined : String) : String :=
  let noAngles := (stripNewlines joined.toList).filter (fun c => !(c == '<' || c == '>'))
  jsTrim ⟨(stripBraces noAngles.length noAngles).filter keptChar⟩

/-- The body of the `for (const block of blocks)` loop in
`parseSrtFile`: `none` when the block is skipped. -/
def parseSrtBlock (block : String) : Option SubtitleEntry :=
  let lines := splitNl (jsTrim block)
  if lines.length ≥ 3 then
    match parseIntJS (lines.headI), findSrtTimes ((lines.getD 1 "").toList) with
    | some index, some ((h1, m1, s1, ms1), (h2, m2, s2, ms2)) =>
      let startTime : ℚ := h1 * 3600 + m1 * 60 + s1 + (ms1 : ℚ) / 1000
      let endTime : ℚ := h2 * 3600 + m2 * 60 + s2 + (ms2 : ℚ) / 1000
      let text := sanitizeSrtText (String.intercalate " " (lines.drop 2))
      if text ≠ "" ∧ startTime < endTime then
        some ⟨index, startTime, endTime, ⟨text.toList.take 100⟩⟩
      else none
    | _, _ => none
  else none

/-- Stable insertion into a list sorted by start time: an element is
placed before the first entry whose start time is not smaller. -/
def insertByStart (x : SubtitleEntry) : List SubtitleEntry → List SubtitleEntry
  | [] => [x]
  | y :: t => if y.startTime < x.startTime then y :: insertByStart x t else x :: y :: t

/-- The stable sort `subtitles.sort((a, b) => a.startTime - b.startTime)`
(JavaScript `Array.prototype.sort` is stable, so any stable sort by the
comparator's preorder is observationally the same). -/
def sortByStart (l : List SubtitleEntry) : List SubtitleEntry :=
  l.foldr insertByStart []

/-- `SubtitleProcessor.parseSrtFile`: split into blocks, parse each
block (skipping malformed ones), and stably sort by start time. -/
def parseSrtFile (srtContent : String) : List SubtitleEntry :=
  sortByStart ((splitBlocks (jsTrim srtContent)).filterMap parseSrtBlock)

end SubtitleBurner

namespace SubtitleBurner

/-- C4: `filterSubtitlesByDuration` keeps exactly the entries starting
before the video ends, clips their end times with `min`, and its
statistics satisfy `total = entries.length`, `relevant` = length of the
returned list, `filtered = total - relevant` (so `relevant + filtered =
total`); on the spec's 10-second example both entries survive, the
second clipped to end at 10, with stats total 2 / relevant 2 /
filtered 0. -/
theorem C4_filter_by_duration :
    (∀ (entries : List SubtitleEntry) (d : ℚ),
      (filterSubtitlesByDuration entries d).1 =
        (entries.filter (fun e => e.startTime < d)).map
          (fun e => { e with endTime := min e.endTime d }) ∧
      (filterSubtitlesByDuration entries d).2.total = entries.length ∧
      (filterSubtitlesByDuration entries d).2.relevant =
        (filterSubtitlesByDuration entries d).1.length ∧
      (filterSubtitlesByDuration entries d).2.filtered =
        (filterSubtitlesByDuration entries d).2.total -
          (filterSubtitlesByDuration entries d).2.relevant ∧
      (filterSubtitlesByDuration entries d).2.relevant +
        (filterSubtitlesByDuration entries d).2.filtered =
        (filterSubtitlesByDuration entries d).2.total) ∧
    (filterSubtitlesByDuration
        [⟨1, 2, 4, "A"⟩, ⟨2, 8, 12, "B"⟩] 10).1 =
      [⟨1, 2, 4, "A"⟩, ⟨2, 8, 10, "B"⟩] ∧
    (filterSubtitlesByDuration
        [⟨1, 2, 4, "A"⟩, ⟨2, 8, 12, "B"⟩] 10).2.total = 2 ∧
    (filterSubtitlesByDuration
        [⟨1, 2, 4, "A"⟩, ⟨2, 8, 12, "B"⟩] 10).2.relevant = 2 ∧
    (filterSubtitlesByDuration
        [⟨1, 2, 4, "A"⟩, ⟨2, 8, 12, "B"⟩] 10).2.filtered = 0 := by
  refine ⟨fun entries d => ?_, by decide, by decide, by decide, by decide⟩
  have hlen : ((entries.filter (fun e => e.startTime < d)).map
      (fun e => { e with endTime := min e.endTime d })).length ≤ entries.length := by
    rw [List.length_map]
    exact List.length_filter_le _ _
  refine ⟨rfl, rfl, rfl, rfl, ?_⟩
  simp only [filterSubtitlesByDuration]
  omega

/-- Exactly-three-character decimal rendering of `n % 1000`, the
fractional part emitted by `toFixed(3)`. -/
def pad3 (n : ℕ) : String :=
  ⟨[Nat.digitChar (n / 100 % 10), Nat.digitChar (n / 10 % 10), Nat.digitChar (n % 10)]⟩

/-- Model of JavaScript `Number.prototype.toFixed(3)` on the rational
model of JS numbers: round `|q| * 1000` half-up to an integer and print
sign, integer part, `.`, and a three-digit zero-padded fraction.  (All
timestamps built by the subtitle parsers are exact multiples of 1/1000,
where this agrees with the JS semantics.) -/
def toFixed3 (q : ℚ) : String :=
  let m : ℕ := (⌊|q| * 1000 + 1/2⌋).toNat
  (if q < 0 then "-" else "") ++ toString (m / 1000) ++ "." ++ pad3 (m % 1000)

/-- One iteration of the `subtitles.forEach` loop body in
`buildOptimizedFilterComplex`: the text appended to `filterComplex` for
the entry `p.2` at position `p.1`, where `n` is the number of entries. -/
def overlayFilter (n : ℕ) (p : ℕ × SubtitleEntry) : String :=
  if p.1 = 0 then
    "[" ++ toString (p.1 + 1) ++ ":v]overlay=0:0:enable='between(t," ++
      toFixed3 p.2.startTime ++ "," ++ toFixed3 p.2.endTime ++ ")'[" ++
      (if p.1 = n - 1 then "final_output" else "overlay" ++ toString p.1) ++ "]"
  else
    ";[overlay" ++ toString (p.1 - 1) ++ "][" ++ toString (p.1 + 1) ++
      ":v]overlay=0:0:enable='between(t," ++ toFixed3 p.2.startTime ++ "," ++
      toFixed3 p.2.endTime ++ ")'[" ++
      (if p.1 = n - 1 then "final_output" else "overlay" ++ toString p.1) ++ "]"

/-- `SubtitleProcessor.buildOptimizedFilterComplex`: a pass-through
filter for an empty list, otherwise the string built by appending one
overlay filter per entry, starting from `"[0:v]"`. -/
def buildOptimizedFilterComplex (subtitles : List SubtitleEntry) : String :=
  if subtitles.length = 0 then "[0:v]copy[final_output]"
  else
    subtitles.enum.foldl
      (fun filterComplex p => filterComplex ++ overlayFilter subtitles.length p)
      "[0:v]"

/-- The claim's description of compositing stage `i` of `n` (0-indexed):
take the previous stage's output (`[overlay(i-1)]`; for `i = 0` the base
video stream supplied by the graph prefix), composite image input
`i + 1` onto it gated by a `between` enable predicate over the entry's
times, and label the result (`final_output` for the last stage). -/
def specStage (n i : ℕ) (e : SubtitleEntry) : String :=
  (if i = 0 then "" else "[overlay" ++ toString (i - 1) ++ "]") ++
    "[" ++ toString (i + 1) ++ ":v]overlay=0:0:enable='between(t," ++
    toFixed3 e.startTime ++ "," ++ toFixed3 e.endTime ++ ")'[" ++
    (if i = n - 1 then "final_output" else "overlay" ++ toString i) ++ "]"

/-- Right-fold join used to reassociate `String.intercalate`. -/
def sepJoin (s : String) (l : List String) : String :=
  l.foldr (fun x r => s ++ x ++ r) ""

theorem intercalate_go_eq (s : String) :
    ∀ (as : List String) (acc : String),
      String.intercalate.go acc s as = acc ++ sepJoin s as := by
  intro as
  induction as with
  | nil => intro acc; simp [String.intercalate.go, sepJoin]
  | cons a as ih =>
    intro acc
    simp [String.intercalate.go, sepJoin, ih, String.append_assoc]

theorem intercalate_cons (s a : String) (as : List String) :
    String.intercalate s (a :: as) = a ++ sepJoin s as := by
  simpa [String.intercalate] using intercalate_go_eq s as a

theorem overlayFilter_eq (n : ℕ) (p : ℕ × SubtitleEntry) :
    overlayFilter n p = (if p.1 = 0 then "" else ";") ++ specStage n p.1 p.2 := by
  rcases p with ⟨i, e⟩
  by_cases h : i = 0
  · simp [overlayFilter, specStage, h, String.append_assoc]
  · have hsplit : (";[overlay" : String) = ";" ++ "[overlay" := rfl
    have hbr : ("][" : String) = "]" ++ "[" := rfl
    simp only [overlayFilter, specStage, if_neg h]
    rw [hsplit, hbr]
    simp only [String.append_assoc]

theorem foldl_overlay (n : ℕ) :
    ∀ (t : List SubtitleEntry) (i : ℕ) (a : String), 0 < i →
      (List.enumFrom i t).foldl (fun acc p => acc ++ overlayFilter n p) a =
        a ++ sepJoin ";" ((List.enumFrom i t).map (fun p => specStage n p.1 p.2)) := by
  intro t
  induction t with
  | nil => intro i a _; simp [sepJoin]
  | cons e t ih =>
    intro i a hi
    have hne : i ≠ 0 := Nat.pos_iff_ne_zero.mp hi
    rw [List.enumFrom_cons, List.foldl_cons, List.map_cons]
    rw [ih (i + 1) _ (Nat.succ_pos i)]
    simp [sepJoin, overlayFilter_eq, hne, String.append_assoc]

theorem digitChar_isDigit {d : ℕ} (h : d < 10) : (Nat.digitChar d).isDigit = true := by
  interval_cases d <;> rfl

theorem pad3_length (n : ℕ) : (pad3 n).length = 3 := rfl

theorem pad3_digits (n : ℕ) : (pad3 n).toList.all Char.isDigit = true := by
  have h1 : n / 100 % 10 < 10 := Nat.mod_lt _ (by norm_num)
  have h2 : n / 10 % 10 < 10 := Nat.mod_lt _ (by norm_num)
  have h3 : n % 10 < 10 := Nat.mod_lt _ (by norm_num)
  simp [pad3, String.toList, digitChar_isDigit h1, digitChar_isDigit h2, digitChar_isDigit h3]

theorem toFixed3_parts (q : ℚ) :
    ∃ intPart frac : String,
      toFixed3 q = intPart ++ "." ++ frac ∧ frac.length = 3 ∧
        frac.toList.all Char.isDigit = true :=
  ⟨(if q < 0 then "-" else "") ++ toString ((⌊|q| * 1000 + 1/2⌋).toNat / 1000),
    pad3 ((⌊|q| * 1000 + 1/2⌋).toNat % 1000), rfl, pad3_length _, pad3_digits _⟩

theorem foldl_overlay_join (n : ℕ) :
    ∀ (xs : List (ℕ × SubtitleEntry)) (a : String),
      xs.foldl (fun acc p => acc ++ overlayFilter n p) a =
        a ++ (xs.map (fun p => overlayFilter n p)).foldr (· ++ ·) "" := by
  intro xs
  induction xs with
  | nil => intro a; simp
  | cons p xs ih => intro a; simp [ih, String.append_assoc]

theorem build_eq_join (l : List SubtitleEntry) (h : l.length ≠ 0) :
    buildOptimizedFilterComplex l =
      "[0:v]" ++ (l.enum.map (fun p => overlayFilter l.length p)).foldr (· ++ ·) "" := by
  rw [buildOptimizedFilterComplex, if_neg h, foldl_overlay_join]

/-- C1: for `N ≥ 1` entries the filter complex is the base stream label
followed by exactly `N` `;`-separated compositing stages, stage `i`
overlaying image input `i + 1` onto the previous stage's output gated by
a `between(t, start, end)` enable whose times are the entry's times
rendered by `toFixed(3)` (always an integer part, a dot, and exactly
three decimal digits), the last stage labelled `final_output`; for `N =
0` it is the single pass-through stage `[0:v]copy[final_output]`. -/
theorem C1_filter_complex_stages (subs : List SubtitleEntry) :
    (subs.length = 0 → buildOptimizedFilterComplex subs = "[0:v]copy[final_output]") ∧
    (subs.length ≠ 0 →
      buildOptimizedFilterComplex subs =
        "[0:v]" ++ String.intercalate ";"
          (subs.enum.map (fun p => specStage subs.length p.1 p.2)) ∧
      (subs.enum.map (fun p => specStage subs.length p.1 p.2)).length = subs.length) ∧
    ∀ q : ℚ, ∃ intPart frac : String,
      toFixed3 q = intPart ++ "." ++ frac ∧ frac.length = 3 ∧
        frac.toList.all Char.isDigit = true := by
  refine ⟨fun h => by simp [buildOptimizedFilterComplex, h], fun h => ?_, toFixed3_parts⟩
  cases subs with
  | nil => simp at h
  | cons e t =>
    refine ⟨?_, by simp⟩
    rw [buildOptimizedFilterComplex, if_neg h]
    rw [List.enum_cons, List.foldl_cons, List.map_cons]
    rw [foldl_overlay _ t 1 _ one_pos, intercalate_cons]
    simp [overlayFilter_eq, String.append_assoc]

/-- Closed instance of `C1_filter_complex_stages` on a one-entry list,
discharging its hypotheses. -/
theorem C1_filter_complex_stages_witness :
    buildOptimizedFilterComplex [⟨1, 1, 2, "A"⟩] =
      "[0:v]" ++ String.intercalate ";"
        (([⟨1, 1, 2, "A"⟩] : List SubtitleEntry).enum.map
          (fun p => specStage 1 p.1 p.2)) ∧
    (([⟨1, 1, 2, "A"⟩] : List SubtitleEntry).enum.map
        (fun p => specStage 1 p.1 p.2)).length = 1 :=
  (C1_filter_complex_stages [⟨1, 1, 2, "A"⟩]).2.1 (by simp)

/-- C3: `buildOptimizedFilterComplex` is deterministic — it is a pure
function of the entries' `index`, `startTime` and `endTime` sequences,
so two deep-equal input lists yield byte-identical strings. -/
theorem C3_build_deterministic (l1 l2 : List SubtitleEntry)
    (hlen : l1.length = l2.length)
    (h : ∀ (i : ℕ) (h1 : i < l1.length) (h2 : i < l2.length),
      (l1.get ⟨i, h1⟩).index = (l2.get ⟨i, h2⟩).index ∧
      (l1.get ⟨i, h1⟩).startTime = (l2.get ⟨i, h2⟩).startTime ∧
      (l1.get ⟨i, h1⟩).endTime = (l2.get ⟨i, h2⟩).endTime) :
    buildOptimizedFilterComplex l1 = buildOptimizedFilterComplex l2 := by
  have hmap : l1.enum.map (fun p => overlayFilter l1.length p) =
      l2.enum.map (fun p => overlayFilter l2.length p) := by
    apply List.ext_get (by simp [hlen])
    intro i h1 h2
    simp only [List.length_map, List.enum_length] at h1 h2
    obtain ⟨hidx, hs, he⟩ := h i h1 h2
    simp only [List.get_eq_getElem] at hs he
    simp [List.getElem_map, List.getElem_enum, overlayFilter, hlen, hs, he]
  by_cases hnil : l1.length = 0
  · have h0 : l2.length = 0 := hlen ▸ hnil
    simp [buildOptimizedFilterComplex, hnil, h0]
  · have h0 : l2.length ≠ 0 := hlen ▸ hnil
    rw [build_eq_join l1 hnil, build_eq_join l2 h0, hmap]

/-- Closed instance of `C3_build_deterministic`: two lists that agree on
indices and times (but not on text) produce identical output. -/
theorem C3_build_deterministic_witness :
    buildOptimizedFilterComplex [⟨1, 1, 2, "A"⟩] =
      buildOptimizedFilterComplex [⟨1, 1, 2, "B"⟩] :=
  C3_build_deterministic [⟨1, 1, 2, "A"⟩] [⟨1, 1, 2, "B"⟩] rfl
    (by
      intro i h1 h2
      have hi : i = 0 := by simpa using h1
      subst hi
      exact ⟨rfl, rfl, rfl⟩)

/-! ### C6 / C7: parser error behaviour and text sanitization -/

theorem splitOnChar_ne_nil (sep : Char) (l : List Char) : splitOnChar sep l ≠ [] := by
  induction l with
  | nil => simp [splitOnChar]
  | cons c rest ih =>
    by_cases h : c = sep
    · simp [splitOnChar, h]
    · simp only [splitOnChar, if_neg h]
      cases hs : splitOnChar sep rest with
      | nil => simp
      | cons b bs => simp

theorem splitOnChar_not_mem (sep : Char) (l : List Char) :
    ∀ b ∈ splitOnChar sep l, sep ∉ b := by
  induction l with
  | nil => intro b hb; simp [splitOnChar] at hb; simp [hb]
  | cons c rest ih =>
    intro b hb
    by_cases h : c = sep
    · simp only [splitOnChar, if_pos h, List.mem_cons] at hb
      rcases hb with rfl | hb
      · simp
      · exact ih b hb
    · simp only [splitOnChar, if_neg h] at hb
      cases hs : splitOnChar sep rest with
      | nil => exact absurd hs (splitOnChar_ne_nil sep rest)
      | cons b0 bs =>
        rw [hs] at hb
        rcases List.mem_cons.mp hb with rfl | hb2
        · intro hmem
          rcases List.mem_cons.mp hmem with rfl | hmem2
          · exact h rfl
          · exact ih b0 (hs ▸ List.mem_cons_self b0 bs) hmem2
        · exact ih b (hs ▸ List.mem_cons_of_mem b0 hb2)

theorem stripNewlines_eq_self : ∀ l : List Char, '\n' ∉ l → stripNewlines l = l := by
  intro l
  induction l with
  | nil => intro _; rfl
  | cons c rest ih =>
    intro h
    have hc : c ≠ '\n' := fun e => h (e ▸ List.mem_cons_self c rest)
    have hr : '\n' ∉ rest := fun m => h (List.mem_cons_of_mem c m)
    cases rest with
    | nil => simp [stripNewlines, hc]
    | cons d rest2 =>
      have hd : d ≠ '\n' := fun e => hr (e ▸ List.mem_cons_self d rest2)
      by_cases hcr : c = '\r'
      · subst hcr
        simp [stripNewlines, hd, ih hr]
      · simp [stripNewlines, hc, hcr, ih hr]

theorem noNl_sepJoin (s : String) (as : List String)
    (hs : '\n' ∉ s.toList) (h : ∀ a ∈ as, '\n' ∉ a.toList) :
    '\n' ∉ (sepJoin s as).toList := by
  induction as with
  | nil => simp [sepJoin, String.toList]
  | cons x xs ih =>
    simp only [sepJoin, List.foldr_cons]
    intro hmem
    simp only [String.toList, String.data_append] at hmem
    rcases List.mem_append.mp hmem with h1 | h1
    rcases List.mem_append.mp h1 with h2 | h2
    · exact hs h2
    · exact h x (List.mem_cons_self x xs) h2
    · exact ih (fun a ha => h a (List.mem_cons_of_mem x ha)) h1

theorem noNl_intercalate (s : String) (as : List String)
    (hs : '\n' ∉ s.toList) (h : ∀ a ∈ as, '\n' ∉ a.toList) :
    '\n' ∉ (String.intercalate s as).toList := by
  cases as with
  | nil => simp [String.intercalate, String.toList]
  | cons a as =>
    rw [intercalate_cons]
    intro hmem
    simp only [String.toList, String.data_append] at hmem
    rcases List.mem_append.mp hmem with h1 | h1
    · exact h a (List.mem_cons_self a as) h1
    · exact noNl_sepJoin s as hs (fun x hx => h x (List.mem_cons_of_mem a hx)) h1

theorem splitNl_no_newline (s : String) : ∀ line ∈ splitNl s, '\n' ∉ line.toList := by
  intro line hline
  simp only [splitNl, List.mem_map] at hline
  obtain ⟨piece, hp, rfl⟩ := hline
  exact splitOnChar_not_mem '\n' s.toList piece hp

/-- The character class named by the claim: `[A-Za-z0-9 .,!?;:()\-]`
plus whitespace — note: no underscore. -/
def claimKeptChar (c : Char) : Bool :=
  c.isAlphanum || c == ' ' || jsWhitespace c || c == '.' || c == ',' ||
  c == '!' || c == '?' || c == ';' || c == ':' || c == '(' || c == ')' || c == '-'

/-- Removal of whole `<...>` groups (analogous to `stripBraces`), as the
claim's words "`<...>` markup stripped" would require. -/
def stripAngleTags : ℕ → List Char → List Char
  | _, [] => []
  | 0, l => l
  | fuel + 1, '<' :: rest =>
    match rest.dropWhile (· ≠ '>') with
    | _ :: r => stripAngleTags fuel r
    | [] => '<' :: stripAngleTags fuel rest
  | fuel + 1, c :: rest => c :: stripAngleTags fuel rest

/-- The claim's sanitization pipeline, following its words: join the text
lines with a single space, strip whole `<...>` markup groups and `{...}`
override tags, remove every character outside `[A-Za-z0-9 .,!?;:()\-]`
plus whitespace, truncate to 100 characters. -/
def claimSanitize (lines : List String) : String :=
  let joined := String.intercalate " " lines
  let noTags := stripAngleTags joined.toList.length joined.toList
  ⟨((stripBraces noTags.length noTags).filter claimKeptChar).take 100⟩

/-- The sanitization pipeline as amended to match the code: only the
`<` and `>` characters themselves are removed (tag names survive), the
kept character class is `\w` (which includes `_`) plus `\s` plus the
listed punctuation, the result is trimmed and then truncated to 100
characters. -/
def amendedSanitize (lines : List String) : String :=
  let joined := String.intercalate " " lines
  let noAngles := joined.toList.filter (fun c => !(c == '<' || c == '>'))
  ⟨(jsTrim ⟨(stripBraces noAngles.length noAngles).filter keptChar⟩).toList.take 100⟩

theorem parseSrtBlock_text (block : String) (e : SubtitleEntry)
    (h : parseSrtBlock block = some e) :
    e.text = ⟨(sanitizeSrtText (String.intercalate " "
      ((splitNl (jsTrim block)).drop 2))).toList.take 100⟩ := by
  unfold parseSrtBlock at h
  dsimp only at h
  split at h
  · split at h
    · split at h
      · injection h with h2
        subst h2
        rfl
      · exact Option.noConfusion h
    · exact Option.noConfusion h
  · exact Option.noConfusion h

/-- C7 (counterexample): on the block
`1\n00:00:01,000 --> 00:00:02,000\n<i>a_b</i>` the parser keeps the tag
names and the underscore, producing `"ia_bi"`, while the claim's
pipeline (`<...>` stripped whole, no underscore in the kept class)
predicts `"ab"`. -/
theorem C7_counterexample :
    (parseSrtBlock "1\n00:00:01,000 --> 00:00:02,000\n<i>a_b</i>").map
        SubtitleEntry.text = some "ia_bi" ∧
    claimSanitize ["<i>a_b</i>"] = "ab" ∧
    (parseSrtBlock "1\n00:00:01,000 --> 00:00:02,000\n<i>a_b</i>").map
        SubtitleEntry.text ≠ some (claimSanitize ["<i>a_b</i>"]) := by
  refine ⟨?_, by decide, ?_⟩
  · with_unfolding_all decide
  · with_unfolding_all decide

/-- C7 (amended): for every SRT block the parser accepts, the entry's
text is the block's text lines joined with single spaces, with the `<`
and `>` characters removed (tag contents retained), `{...}` override
tags stripped, every character outside `\w` (letters, digits,
underscore) plus whitespace plus `.,!?;:()-` removed, trimmed, and
truncated to at most 100 characters. -/
theorem C7_text_sanitization (block : String) (e : SubtitleEntry)
    (h : parseSrtBlock block = some e) :
    e.text = amendedSanitize ((splitNl (jsTrim block)).drop 2) ∧
    e.text.length ≤ 100 := by
  have htext := parseSrtBlock_text block e h
  have hnn : '\n' ∉ (String.intercalate " "
      ((splitNl (jsTrim block)).drop 2)).toList := by
    apply noNl_intercalate
    · decide
    · intro a ha
      exact splitNl_no_newline (jsTrim block) a (List.drop_subset 2 _ ha)
  constructor
  · rw [htext, amendedSanitize, sanitizeSrtText]
    rw [stripNewlines_eq_self _ hnn]
  · rw [htext]
    show (String.mk _).length ≤ 100
    simp only [String.length]
    calc ((sanitizeSrtText _).toList.take 100).length ≤ 100 := by
          rw [List.length_take]; exact min_le_left _ _

/-- Closed instance of `C7_text_sanitization` on a concrete accepted
block. -/
theorem C7_text_sanitization_witness :
    ("Hi" : String) = amendedSanitize
      ((splitNl (jsTrim "1\n00:00:01,000 --> 00:00:02,000\nHi")).drop 2) ∧
    ("Hi" : String).length ≤ 100 :=
  C7_text_sanitization "1\n00:00:01,000 --> 00:00:02,000\nHi" ⟨1, 1, 2, "Hi"⟩
    (by with_unfolding_all decide)

/-- C6 (counterexample): the code has no `ParseError` anywhere; parsing
is total and simply returns the empty list on a non-empty input that
contains no well-formed entry, instead of raising. -/
theorem C6_counterexample :
    parseSrtFile "no valid subtitle blocks" = [] ∧
    ("no valid subtitle blocks" : String) ≠ "" := by
  exact ⟨by decide, by decide⟩

/-- C6 (amended): `parseSrtFile` never signals an error: malformed
blocks are skipped silently, and when every block of the input is
malformed the result is the empty list. -/
theorem C6_no_parse_error (content : String)
    (h : ∀ b ∈ splitBlocks (jsTrim content), parseSrtBlock b = none) :
    parseSrtFile content = [] := by
  unfold parseSrtFile
  rw [List.filterMap_eq_nil_iff.mpr h]
  rfl

/-- Closed instance of `C6_no_parse_error` at a concrete non-empty
input with zero well-formed entries. -/
theorem C6_no_parse_error_witness :
    parseSrtFile "1\n2\n\nmalformed block" = [] :=
  C6_no_parse_error "1\n2\n\nmalformed block" (by decide)

/-! ### C8: `convertVttToSrt` -/

/-- The loop state of `convertVttToSrt`: the accumulated SRT text, the
`counter`, the `inCue` flag, and the current cue's times and text. -/
structure VttState where
  srtContent : String
  counter : ℕ
  inCue : Bool
  startTime : String
  endTime : String
  text : String
  deriving Repr, DecidableEq

/-- The initial loop state of `convertVttToSrt`. -/
def initialVttState : VttState :=
  ⟨"", 1, false, "", "", ""⟩

/-- JavaScript `line.includes('-->')`. -/
def containsArrow : List Char → Bool
  | '-' :: '-' :: '>' :: _ => true
  | _ :: rest => containsArrow rest
  | [] => false

/-- One VTT timestamp `\d{2}:\d{2}:\d{2}\.\d{3}`, returning the captured
characters. -/
def matchVttStamp (l : List Char) : Option (List Char × List Char) := do
  let (h, l) ← takeDigits 2 l
  let l ← expectChar ':' l
  let (m, l) ← takeDigits 2 l
  let l ← expectChar ':' l
  let (s, l) ← takeDigits 2 l
  let l ← expectChar '.' l
  let (ms, l) ← takeDigits 3 l
  return (h ++ ':' :: m ++ ':' :: s ++ '.' :: ms, l)

/-- The cue time-line regex
`(\d{2}:\d{2}:\d{2}\.\d{3}) --> (\d{2}:\d{2}:\d{2}\.\d{3})` matched at
the head of `l` (single literal spaces around the arrow). -/
def matchVttTimesAt (l : List Char) : Option (List Char × List Char) := do
  let (c1, l) ← matchVttStamp l
  let l ← expectChar ' ' l
  let l ← expectChar '-' l
  let l ← expectChar '-' l
  let l ← expectChar '>' l
  let l ← expectChar ' ' l
  let (c2, _) ← matchVttStamp l
  return (c1, c2)

/-- Leftmost match of the VTT time-line regex anywhere in the line. -/
def findVttTimes : List Char → Option (List Char × List Char)
  | [] => none
  | c :: rest =>
    match matchVttTimesAt (c :: rest) with
    | some r => some r
    | none => findVttTimes rest

/-- JavaScript `str.replace('.', ',')` (string pattern: first occurrence
only). -/
def replaceFirstDotComma : List Char → List Char
  | [] => []
  | '.' :: rest => ',' :: rest
  | c :: rest => c :: replaceFirstDotComma rest

/-- The body of the `for (const line of lines)` loop in
`convertVttToSrt`. -/
def vttStep (st : VttState) (line : String) : VttState :=
  if containsArrow line.toList then
    match findVttTimes line.toList with
    | some (c1, c2) =>
      { st with startTime := ⟨replaceFirstDotComma c1⟩,
                endTime := ⟨replaceFirstDotComma c2⟩, inCue := true, text := "" }
    | none => st
  else if st.inCue = true ∧ jsTrim line = "" then
    if jsTrim st.text ≠ "" then
      { st with
        srtContent := st.srtContent ++ toString st.counter ++ "\n" ++
          st.startTime ++ " --> " ++ st.endTime ++ "\n" ++ jsTrim st.text ++ "\n\n",
        counter := st.counter + 1, inCue := false }
    else { st with inCue := false }
  else if st.inCue = true ∧ jsTrim line ≠ "" ∧
      ¬ ("NOTE".toList.isPrefixOf line.toList = true) then
    { st with text := st.text ++ line ++ "\n" }
  else st

/-- `SubtitleProcessor.convertVttToSrt`: fold the loop body over the
lines of the input. -/
def convertVttToSrt (vttContent : String) : String :=
  ((splitNl vttContent).foldl vttStep initialVttState).srtContent

theorem vttStep_srtContent_extend (st : VttState) (line : String) :
    ∃ add : String, (vttStep st line).srtContent = st.srtContent ++ add := by
  unfold vttStep
  split
  · split
    · exact ⟨"", (String.append_empty _).symm⟩
    · exact ⟨"", (String.append_empty _).symm⟩
  · split
    · split
      · exact ⟨toString st.counter ++ "\n" ++ st.startTime ++ " --> " ++
          st.endTime ++ "\n" ++ jsTrim st.text ++ "\n\n",
          by simp [String.append_assoc]⟩
      · exact ⟨"", (String.append_empty _).symm⟩
    · split
      · exact ⟨"", (String.append_empty _).symm⟩
      · exact ⟨"", (String.append_empty _).symm⟩

theorem foldl_vtt_srtContent_extend :
    ∀ (lines : List String) (st : VttState),
      ∃ add : String, (lines.foldl vttStep st).srtContent = st.srtContent ++ add := by
  intro lines
  induction lines with
  | nil => exact fun st => ⟨"", (String.append_empty _).symm⟩
  | cons line rest ih =>
    intro st
    obtain ⟨a1, h1⟩ := vttStep_srtContent_extend st line
    obtain ⟨a2, h2⟩ := ih (vttStep st line)
    exact ⟨a1 ++ a2, by rw [List.foldl_cons, h2, h1, String.append_assoc]⟩

theorem foldl_vtt_cue (st : VttState) :
    (["00:00:01.000 --> 00:00:02.000", "Hi", ""].foldl vttStep st) =
      { st with
        srtContent := st.srtContent ++ toString st.counter ++ "\n" ++
          "00:00:01,000" ++ " --> " ++ "00:00:02,000" ++ "\n" ++ "Hi" ++ "\n\n",
        counter := st.counter + 1, inCue := false,
        startTime := "00:00:01,000", endTime := "00:00:02,000", text := "Hi\n" } := by
  rfl

/-- C8 (amended): whenever the cue
`00:00:01.000 --> 00:00:02.000 / Hi` appears in the line list followed
by a blank line (in particular when the file ends with a trailing
newline, which contributes a final empty line), the output contains an
SRT block with comma-decimal times and text `Hi`; and a non-blank
`NOTE` line inside or outside a cue (one not containing `-->`) leaves
the state unchanged, i.e. is dropped.  (A final cue at end of file with
no following blank line or newline is dropped — see the
counterexample.) -/
theorem C8_vtt_conversion :
    (∀ pre post : List String,
      ∃ (n : ℕ) (a b : String),
        ((pre ++ ["00:00:01.000 --> 00:00:02.000", "Hi", ""] ++ post).foldl
            vttStep initialVttState).srtContent =
          a ++ (toString n ++ "\n00:00:01,000 --> 00:00:02,000\nHi\n\n") ++ b) ∧
    convertVttToSrt "WEBVTT\n\n00:00:01.000 --> 00:00:02.000\nHi\n" =
      "1\n00:00:01,000 --> 00:00:02,000\nHi\n\n" ∧
    (∀ (st : VttState) (line : String),
      "NOTE".toList.isPrefixOf line.toList = true →
      ¬ containsArrow line.toList = true →
      jsTrim line ≠ "" →
      vttStep st line = st) := by
  refine ⟨?_, by decide, ?_⟩
  · intro pre post
    refine ⟨(pre.foldl vttStep initialVttState).counter,
      (pre.foldl vttStep initialVttState).srtContent, ?_⟩
    rw [List.foldl_append, List.foldl_append, foldl_vtt_cue]
    obtain ⟨rest, hrest⟩ := foldl_vtt_srtContent_extend post _
    refine ⟨rest, ?_⟩
    rw [hrest]
    have hlit : ("\n" : String) ++ ("00:00:01,000" ++ (" --> " ++
        ("00:00:02,000" ++ ("\n" ++ ("Hi" ++ "\n\n"))))) =
        "\n00:00:01,000 --> 00:00:02,000\nHi\n\n" := rfl
    rw [← hlit]
    simp [String.append_assoc]
  · intro st line h1 h2 h3
    unfold vttStep
    rw [if_neg h2, if_neg (fun hc => h3 hc.2),
      if_neg (fun hc => hc.2.2 h1)]

/-- Closed instance of `C8_vtt_conversion`'s `NOTE` clause at a concrete
state and line. -/
theorem C8_vtt_conversion_witness :
    vttStep initialVttState "NOTE this is a comment" = initialVttState :=
  C8_vtt_conversion.2.2 initialVttState "NOTE this is a comment"
    (by decide) (by decide) (by decide)

/-- C8 (counterexample): in a file whose final cue is not followed by a
blank line or a trailing newline, the cue is silently dropped: the
converter returns the empty string, which contains no SRT block at
all. -/
theorem C8_counterexample :
    convertVttToSrt "WEBVTT\n\n00:00:01.000 --> 00:00:02.000\nHi" = "" ∧
    ¬ ∃ a b : String,
      convertVttToSrt "WEBVTT\n\n00:00:01.000 --> 00:00:02.000\nHi" =
        a ++ "1\n00:00:01,000 --> 00:00:02,000\nHi\n\n" ++ b := by
  have h : convertVttToSrt "WEBVTT\n\n00:00:01.000 --> 00:00:02.000\nHi" = "" := by
    decide
  refine ⟨h, ?_⟩
  rintro ⟨a, b, hab⟩
  rw [h] at hab
  have hlen := congrArg String.length hab
  simp only [String.length_append] at hlen
  have h0 : ("" : String).length = 0 := by decide
  have hblk : 0 < ("1\n00:00:01,000 --> 00:00:02,000\nHi\n\n" : String).length := by
    decide
  omega

/-! ### ProgressManager (`ProgressManager.ts`) -/

/-- The `ProcessingPhase` union type. -/
inductive ProcessingPhase where
  | parsingSubtitles
  | processingVideo
  | completed
  | error
  deriving Repr, DecidableEq

/-- `PhaseConfig` from `ProgressManager.ts`. -/
structure PhaseConfig where
  name : String
  number : ℕ
  deriving Repr, DecidableEq

/-- The `phaseConfigs` record. -/
def phaseConfigs : ProcessingPhase → PhaseConfig
  | .parsingSubtitles => ⟨"Phase 1: Generating Subtitle Images", 1⟩
  | .processingVideo => ⟨"Phase 2: Encoding Video with Subtitles", 2⟩
  | .completed => ⟨"Processing Complete", 3⟩
  | .error => ⟨"Processing Failed", 0⟩

/-- A progress update as emitted to subscribers.  The wall-clock
`timestamp` (`Date.now()`) and the optional `metadata` record are not
consulted by any claim treated here and are omitted from the model. -/
structure ProgressUpdate where
  phase : ProcessingPhase
  phaseProgress : ℚ
  phaseNumber : ℕ
  totalPhases : ℕ
  message : String
  deriving Repr, DecidableEq

/-- The mutable fields of `ProgressManager` (the subscriber callback
sets are modelled by returning the list of updates emitted by each
call). -/
structure PMState where
  currentPhase : ProcessingPhase
  phaseProgress : ℚ
  lastReportedProgress : ℚ
  progressHistory : List ProgressUpdate
  deriving Repr, DecidableEq

/-- `reset()` / the freshly constructed manager. -/
def initialPMState : PMState :=
  ⟨.parsingSubtitles, 0, 0, []⟩

/-- Model of JavaScript `Number.prototype.toFixed(1)`, as `toFixed3`. -/
def toFixed1 (q : ℚ) : String :=
  let m : ℕ := (⌊|q| * 10 + 1/2⌋).toNat
  (if q < 0 then "-" else "") ++ toString (m / 10) ++ "." ++ ⟨[Nat.digitChar (m % 10)]⟩

/-- `emitUpdate`: build the update, append it to the history (capped at
the last 100 entries), and notify subscribers (modelled by returning the
update). -/
def emitUpdate (message : String) (st : PMState) : PMState × ProgressUpdate :=
  let cfg := phaseConfigs st.currentPhase
  let update : ProgressUpdate :=
    ⟨st.currentPhase, st.phaseProgress, cfg.number, 2, message⟩
  let h := st.progressHistory ++ [update]
  ({ st with progressHistory := if h.length > 100 then h.tail else h }, update)

/-- JavaScript `message || defaultMessage` for an optional string
parameter (`undefined` and `""` are both falsy). -/
def messageOrDefault (message : Option String) (dflt : String) : String :=
  match message with
  | some m => if m = "" then dflt else m
  | none => dflt

/-- `updatePhase(progress, message)`: clamp to `[0, 100]`, drop
non-increasing updates, and emit only the first nonzero progress of the
phase or increases of at least one percentage point since the last
emission. -/
def updatePhase (progress0 : ℚ) (message : Option String) (st : PMState) :
    PMState × List ProgressUpdate :=
  let progress := max 0 (min 100 progress0)
  if progress ≤ st.phaseProgress then (st, [])
  else
    let st1 : PMState := { st with phaseProgress := progress }
    if (st1.lastReportedProgress = (0 : ℚ) ∧ progress > (0 : ℚ)) ∨
        progress - st1.lastReportedProgress ≥ (1 : ℚ) then
      let st2 := { st1 with lastReportedProgress := progress }
      let cfg := phaseConfigs st2.currentPhase
      let updateMessage := messageOrDefault message
        (cfg.name ++ ": " ++ toFixed1 progress ++ "%")
      let (st3, u) := emitUpdate updateMessage st2
      (st3, [u])
    else (st1, [])

/-- `setPhase(phase, message)`: no-op on the current phase, otherwise
reset the phase progress, emit a transition update, and issue the
(always-dropped) `updatePhase(0, ...)` call. -/
def setPhase (phase : ProcessingPhase) (message : Option String) (st : PMState) :
    PMState × List ProgressUpdate :=
  if phase = st.currentPhase then (st, [])
  else
    let st1 : PMState := { st with
      currentPhase := phase
      phaseProgress := 0
      lastReportedProgress := 0 }
    let cfg := phaseConfigs phase
    let updateMessage := messageOrDefault message
      ("Phase " ++ toString cfg.number ++ ": " ++ cfg.name ++ " - Starting...")
    let (st2, u1) := emitUpdate updateMessage st1
    let (st3, us) := updatePhase 0
      (some ("Phase " ++ toString cfg.number ++ ": " ++ cfg.name ++ " - 0%")) st2
    (st3, u1 :: us)

/-- `updateVideoProgress(processedTime, totalDuration, message)`. -/
def updateVideoProgress (processedTime totalDuration : ℚ)
    (message : Option String) (st : PMState) : PMState × List ProgressUpdate :=
  let (st1, es1) :=
    if st.currentPhase ≠ .processingVideo then setPhase .processingVideo none st
    else (st, [])
  if totalDuration ≤ 0 then (st1, es1)
  else
    let phaseProgress := min (processedTime / totalDuration * 100) 100
    let defaultMessage := "Processing video: " ++ toFixed1 processedTime ++
      "s / " ++ toFixed1 totalDuration ++ "s"
    let (st2, es2) := updatePhase phaseProgress
      (some (messageOrDefault message defaultMessage)) st1
    (st2, es1 ++ es2)

/-- JavaScript `parseFloat` restricted to the inputs reachable here
(captures of `[\d.]+` and `\d{2}`-style groups: digits with optional
fraction, no sign or exponent in practice; `none` models `NaN`). -/
def parseFloatJS (s : String) : Option ℚ :=
  let l := s.toList.dropWhile jsWhitespace
  let (sign, l) : ℚ × List Char :=
    match l with
    | '-' :: r => (-1, r)
    | '+' :: r => (1, r)
    | r => (1, r)
  let intDigits := l.takeWhile Char.isDigit
  match l.drop intDigits.length with
  | '.' :: r =>
    let fracDigits := r.takeWhile Char.isDigit
    if intDigits = [] ∧ fracDigits = [] then none
    else some (sign * ((digitsVal intDigits : ℚ) +
      (digitsVal fracDigits : ℚ) / (10 ^ fracDigits.length)))
  | _ =>
    if intDigits = [] then none
    else some (sign * (digitsVal intDigits : ℚ))

/-- JavaScript `str.replace(',', '.')` (first occurrence only). -/
def replaceFirstCommaDot : List Char → List Char
  | [] => []
  | ',' :: rest => '.' :: rest
  | c :: rest => c :: replaceFirstCommaDot rest

/-- `parseFFmpegTime`: normalize the decimal separator, split on `:`,
`parseFloat` each part, and combine (the `catch` branch is unreachable
in this total model). -/
def parseFFmpegTime (timeStr : String) : ℚ :=
  let normalized := replaceFirstCommaDot timeStr.toList
  let parts := (splitOnChar ':' normalized).map (fun p => (parseFloatJS ⟨p⟩).getD 0)
  match parts with
  | [a, b, c] => a * 3600 + b * 60 + c
  | [a, b] => a * 60 + b
  | [a] => a
  | _ => 0

/-- Case-insensitive character comparison against a lowercase letter. -/
def matchCI (c lower : Char) : Bool :=
  c == lower || c.toLower == lower

/-- The capture of `time=(\d{2}:\d{2}:\d{2}[\.,]\d{2,3})` matched at the
head of `l` (the literal `time=` is case-insensitive; `\d{2,3}` is
greedy). -/
def matchFFmpegTimeAt (l : List Char) : Option (List Char) := do
  let l ← match l with
          | a :: b :: c :: d :: '=' :: r =>
            if matchCI a 't' && matchCI b 'i' && matchCI c 'm' && matchCI d 'e' then
              some r
            else none
          | _ => none
  let (h, l) ← takeDigits 2 l
  let l ← expectChar ':' l
  let (m, l) ← takeDigits 2 l
  let l ← expectChar ':' l
  let (s, l) ← takeDigits 2 l
  let (sep, l) ← match l with
                 | x :: r => if x = '.' ∨ x = ',' then some (x, r) else none
                 | [] => none
  match takeDigits 3 l with
  | some (ms, _) => return h ++ ':' :: m ++ ':' :: s ++ sep :: ms
  | none =>
    let (ms, _) ← takeDigits 2 l
    return h ++ ':' :: m ++ ':' :: s ++ sep :: ms

/-- Leftmost match of the `time=` capture anywhere in the message. -/
def findFFmpegTime : List Char → Option (List Char)
  | [] => none
  | c :: rest =>
    match matchFFmpegTimeAt (c :: rest) with
    | some r => some r
    | none => findFFmpegTime rest

/-- The capture of `frame=\s*(\d+)` matched at the head of `l`
(case-insensitive literal). -/
def matchFrameAt (l : List Char) : Option (List Char) := do
  let l ← match l with
          | a :: b :: c :: d :: e :: '=' :: r =>
            if matchCI a 'f' && matchCI b 'r' && matchCI c 'a' && matchCI d 'm' &&
                matchCI e 'e' then
              some r
            else none
          | _ => none
  let l := l.dropWhile jsWhitespace
  let ds := l.takeWhile Char.isDigit
  if ds = [] then none else return ds

/-- Leftmost `frame=` capture. -/
def findFrame : List Char → Option (List Char)
  | [] => none
  | c :: rest =>
    match matchFrameAt (c :: rest) with
    | some r => some r
    | none => findFrame rest

/-- The capture of `fps=\s*([\d.]+)` matched at the head of `l`. -/
def matchFpsAt (l : List Char) : Option (List Char) := do
  let l ← match l with
          | a :: b :: c :: '=' :: r =>
            if matchCI a 'f' && matchCI b 'p' && matchCI c 's' then some r else none
          | _ => none
  let l := l.dropWhile jsWhitespace
  let ds := l.takeWhile (fun c => c.isDigit || c == '.')
  if ds = [] then none else return ds

/-- Leftmost `fps=` capture. -/
def findFps : List Char → Option (List Char)
  | [] => none
  | c :: rest =>
    match matchFpsAt (c :: rest) with
    | some r => some r
    | none => findFps rest

/-- `parseFFmpegLog(message, videoDuration)`: no effect (returning
`false`) outside the `processing-video` phase or without a known
nonzero duration; otherwise extract time-based (or frame/fps-based)
progress and forward it to `updateVideoProgress`.  The returned triple
is (new state, emitted updates, returned boolean). -/
def parseFFmpegLog (message : String) (videoDuration : Option ℚ) (st : PMState) :
    PMState × List ProgressUpdate × Bool :=
  if st.currentPhase ≠ .processingVideo ∨ videoDuration = none ∨
      videoDuration = some 0 then
    (st, [], false)
  else
    let dur := videoDuration.getD 0
    match findFFmpegTime message.toList with
    | some timeStr =>
      let processedTime := parseFFmpegTime ⟨timeStr⟩
      let (st1, es) := updateVideoProgress processedTime dur (some message) st
      (st1, es, true)
    | none =>
      match findFrame message.toList, findFps message.toList with
      | some framesStr, some fpsStr =>
        let frames := digitsVal framesStr
        match parseFloatJS ⟨fpsStr⟩ with
        | some fps =>
          if fps > 0 then
            let processedTime := (frames : ℚ) / fps
            let (st1, es) := updateVideoProgress processedTime dur (some message) st
            (st1, es, true)
          else (st, [], false)
        | none => (st, [], false)
      | _, _ => (st, [], false)

/-- A sequence of `updatePhase` calls, threading only the state. -/
def runUpdatePhase (calls : List (ℚ × Option String)) (st : PMState) : PMState :=
  calls.foldl (fun s c => (updatePhase c.1 c.2 s).1) st

theorem updatePhase_mono (v : ℚ) (m : Option String) (st : PMState) :
    st.phaseProgress ≤ (updatePhase v m st).1.phaseProgress := by
  simp only [updatePhase, emitUpdate]
  split_ifs with h1 h2 h3
  · exact le_refl _
  · exact le_of_lt (lt_of_not_le h1)
  · exact le_of_lt (lt_of_not_le h1)
  · exact le_of_lt (lt_of_not_le h1)

/-- C2: within one phase, `phaseProgress` is non-decreasing over any
sequence of `updatePhase` calls; a call whose clamped value does not
exceed the stored progress leaves the state unchanged and emits
nothing; an accepted call always stores the clamped value but emits an
update exactly when it is the phase's first nonzero progress
(`lastReportedProgress = 0`) or the increase over the last emitted value
is at least one percentage point. -/
theorem C2_updatePhase_monotone :
    (∀ (calls : List (ℚ × Option String)) (st : PMState),
      st.phaseProgress ≤ (runUpdatePhase calls st).phaseProgress) ∧
    (∀ (v : ℚ) (m : Option String) (st : PMState),
      max 0 (min 100 v) ≤ st.phaseProgress → updatePhase v m st = (st, [])) ∧
    (∀ (v : ℚ) (m : Option String) (st : PMState),
      st.phaseProgress < max 0 (min 100 v) →
        (updatePhase v m st).1.phaseProgress = max 0 (min 100 v) ∧
        ((updatePhase v m st).2 ≠ [] ↔
          (st.lastReportedProgress = 0 ∧ 0 < max 0 (min 100 v)) ∨
            1 ≤ max 0 (min 100 v) - st.lastReportedProgress)) := by
  refine ⟨?_, ?_, ?_⟩
  · intro calls
    induction calls with
    | nil => exact fun st => le_refl _
    | cons c rest ih =>
      intro st
      have h1 := updatePhase_mono c.1 c.2 st
      have h2 := ih (updatePhase c.1 c.2 st).1
      simp only [runUpdatePhase, List.foldl_cons] at h2 ⊢
      exact le_trans h1 h2
  · intro v m st h
    simp only [updatePhase]
    rw [if_pos h]
  · intro v m st h
    have hlt : ¬ max 0 (min 100 v) ≤ st.phaseProgress := not_le.mpr h
    simp only [updatePhase, emitUpdate]
    rw [if_neg hlt]
    by_cases hc : (st.lastReportedProgress = (0 : ℚ) ∧ max 0 (min 100 v) > 0) ∨
        max 0 (min 100 v) - st.lastReportedProgress ≥ 1
    · rw [if_pos hc]
      exact ⟨rfl, by simpa using hc⟩
    · rw [if_neg hc]
      exact ⟨rfl, by simpa using hc⟩

/-- Closed instance of `C2_updatePhase_monotone`: a regressing update on
a state at 60% is dropped wholesale, and an accepted update from the
initial state stores the clamped value. -/
theorem C2_updatePhase_monotone_witness :
    updatePhase 30 none ⟨.parsingSubtitles, 60, 60, []⟩ =
      (⟨.parsingSubtitles, 60, 60, []⟩, []) ∧
    (updatePhase 50 none initialPMState).1.phaseProgress = max 0 (min 100 50) :=
  ⟨C2_updatePhase_monotone.2.1 30 none ⟨.parsingSubtitles, 60, 60, []⟩
      (by norm_num [min_def, max_def]),
    (C2_updatePhase_monotone.2.2 50 none initialPMState
      (by norm_num [initialPMState, min_def, max_def])).1⟩

/-- C10: `parseFFmpegLog` returns `false` and leaves the state (and the
emitted-update stream) completely unchanged whenever the current phase
is not `processing-video` or the known duration is undefined/zero; in
particular every log line processed in the `completed` or `error` phase
is ignored. -/
theorem C10_parseFFmpegLog_guard :
    (∀ (msg : String) (dur : Option ℚ) (st : PMState),
      st.currentPhase ≠ .processingVideo ∨ dur = none ∨ dur = some 0 →
      parseFFmpegLog msg dur st = (st, [], false)) ∧
    (∀ (msg : String) (dur : Option ℚ) (st : PMState),
      st.currentPhase = .completed ∨ st.currentPhase = .error →
      parseFFmpegLog msg dur st = (st, [], false)) := by
  have main : ∀ (msg : String) (dur : Option ℚ) (st : PMState),
      st.currentPhase ≠ .processingVideo ∨ dur = none ∨ dur = some 0 →
      parseFFmpegLog msg dur st = (st, [], false) := by
    intro msg dur st h
    unfold parseFFmpegLog
    rw [if_pos h]
  refine ⟨main, fun msg dur st h => main msg dur st (Or.inl ?_)⟩
  rcases h with h | h <;> simp [h]

/-- Closed instance of `C10_parseFFmpegLog_guard`: a perfectly
well-formed progress line arriving in the `completed` phase changes
nothing and reports no extraction. -/
theorem C10_parseFFmpegLog_guard_witness :
    parseFFmpegLog "frame= 100 fps= 25 time=00:00:04.00 bitrate= 523.6kbits/s"
        (some 10) ⟨.completed, 100, 100, []⟩ =
      (⟨.completed, 100, 100, []⟩, [], false) :=
  C10_parseFFmpegLog_guard.2
    "frame= 100 fps= 25 time=00:00:04.00 bitrate= 523.6kbits/s"
    (some 10) ⟨.completed, 100, 100, []⟩ (Or.inl rfl)

/-! ### C9: cancellation vs. error routing
(`useVideoProcessing.startProcessing`, catch block) -/

/-- A thrown JavaScript `Error`.  Every value thrown on the processing
path of this app is an `Error` instance (the code only ever throws
`new Error(...)`, and `FFmpeg.terminate()` rejects with
`Error: called FFmpeg.terminate()` by design), so the model carries just
the message. -/
structure JsError where
  message : String
  deriving Repr, DecidableEq

/-- The store fields touched by the catch block of `startProcessing`:
`videoStore.error`, the progress log, and the progress stage/phase
labels. -/
structure ProcessingUIState where
  error : Option String
  logs : List String
  progressStage : String
  progressPhase : String
  deriving Repr, DecidableEq

/-- The catch block of `startProcessing`: the termination sentinel is
routed to the cancellation path (log line, `Cancelled`/`Stopped`
labels, **no** `setError`); everything else is surfaced as a processing
error via `setError`.  (The external `handleError` monitoring call of
the error path has no store effect and is not modelled.) -/
def handleProcessingCatch (err : JsError) (st : ProcessingUIState) : ProcessingUIState :=
  if err.message = "called FFmpeg.terminate()" then
    { st with
      logs := st.logs ++ ["🛑 Processing cancelled by user"]
      progressStage := "Cancelled"
      progressPhase := "Stopped" }
  else
    { st with
      error := some ("Processing failed: " ++ err.message)
      logs := st.logs ++ ["Processing error: " ++ err.message]
      progressStage := "Error"
      progressPhase := "Failed" }

/-- C9: an error whose message is exactly `called FFmpeg.terminate()`
takes the cancellation path — the caller's fatal-error field is left
untouched — while any other error is surfaced through `setError` as
`Processing failed: ...`. -/
theorem C9_cancellation_routing :
    (∀ (err : JsError) (st : ProcessingUIState),
      err.message = "called FFmpeg.terminate()" →
      handleProcessingCatch err st =
        { st with
          logs := st.logs ++ ["🛑 Processing cancelled by user"]
          progressStage := "Cancelled"
          progressPhase := "Stopped" } ∧
      (handleProcessingCatch err st).error = st.error) ∧
    (∀ (err : JsError) (st : ProcessingUIState),
      err.message ≠ "called FFmpeg.terminate()" →
      (handleProcessingCatch err st).error =
        some ("Processing failed: " ++ err.message)) := by
  constructor
  · intro err st h
    unfold handleProcessingCatch
    rw [if_pos h]
    exact ⟨rfl, rfl⟩
  · intro err st h
    unfold handleProcessingCatch
    rw [if_neg h]

/-- Closed instance of `C9_cancellation_routing` at the sentinel and a
fresh UI state. -/
theorem C9_cancellation_routing_witness :
    handleProcessingCatch ⟨"called FFmpeg.terminate()"⟩ ⟨none, [], "", ""⟩ =
      ⟨none, ["🛑 Processing cancelled by user"], "Cancelled", "Stopped"⟩ ∧
    (handleProcessingCatch ⟨"called FFmpeg.terminate()"⟩ ⟨none, [], "", ""⟩).error =
      none :=
  C9_cancellation_routing.1 ⟨"called FFmpeg.terminate()"⟩ ⟨none, [], "", ""⟩ rfl

/-- C5: the duration filter is idempotent — filtering an
already-filtered list against the same duration returns it unchanged. -/
theorem C5_filter_idempotent (l : List SubtitleEntry) (d : ℚ) :
    (filterSubtitlesByDuration (filterSubtitlesByDuration l d).1 d).1 =
      (filterSubtitlesByDuration l d).1 := by
  simp only [filterSubtitlesByDuration]
  induction l with
  | nil => rfl
  | cons e t ih =>
    by_cases h : e.startTime < d
    · simpa [h, min_assoc] using ih
    · simpa [h] using ih

end SubtitleBurner
